import Mathlib

/-!
Verification development for the `image2svg` front-end
(`src/app/layout.tsx`).  The file embeds, as executable Lean
definitions, the pieces of the page component that the specification
talks about:

* the output sanitizer `cleanSvgResponse` (four sequential
  JavaScript `String.replace(regex, repl)` passes),
* the parameter / preset state machine (`updateParam`,
  `handlePresetChange`, `processFile`, `handleImageUpload`,
  `handleDrop`, the clear button, `loadPresets`),
* the conversion orchestrator `processImage` (modelled against an
  explicit fetch outcome), and
* the 500 ms debounce timer of the conversion `useEffect`.

Strings are modelled as `List Char`; a JavaScript global regex
replacement is a single left-to-right, non-overlapping scan, which is
modelled by `scanStepF` below.  All four regexes of the source can
only match non-empty text, so the scan always consumes at least one
character per match; the `fuel` argument (instantiated with the length
of the string, which is always sufficient) only makes the recursion
structural so that the kernel can evaluate it.
-/

namespace Image2Svg

/-- The literal pattern of the source regex `/ns0:/g`. -/
def ns0Pat : List Char := "ns0:".data

/-- The fixed head of the source regex `/xmlns:ns0="[^"]*"/g`. -/
def declHead : List Char := "xmlns:ns0=\"".data

/-- The literal pattern of the source regex `/fill="#000000"/g`. -/
def fillBlack : List Char := "fill=\"#000000\"".data

/-- The replacement text `fill="#ffffff"` of pass 3. -/
def fillWhite : List Char := "fill=\"#ffffff\"".data

/-- The fixed head of the source regex `/<metadata>[\s\S]*?<\/metadata>/g`. -/
def metaOpen : List Char := "<metadata>".data

/-- The closing tag of the metadata regex. -/
def metaClose : List Char := "</metadata>".data

/-- The bare token `ns0`, used to state absence of any ns0 residue. -/
def ns0Bare : List Char := "ns0".data

/-- The token `xmlns:ns0`, the namespace-declaration name. -/
def xmlnsNs0 : List Char := "xmlns:ns0".data

/-- Matcher for a literal pattern at the head of `s`.  A matcher
returns `some n` when the regex matches a block of `n + 1` characters
at the current position (all four source regexes match at least one
character), `none` when it does not match here. -/
def litMatch (pat s : List Char) : Option Nat :=
  if pat.isPrefixOf s then some (pat.length - 1) else none

/-- Matcher for `xmlns:ns0="[^"]*"`: the literal head, then a
(greedy) run of non-quote characters, then the closing quote.  The
run of `[^"]*` followed by `"` ends exactly at the first quote. -/
def ns0DeclMatch (s : List Char) : Option Nat :=
  if declHead.isPrefixOf s then
    match (s.drop declHead.length).findIdx? (fun c => c = '"') with
    | some k => some (declHead.length + k)
    | none => none
  else none

/-- First index at which `pat` occurs as a contiguous block of `s`. -/
def findSubIdx (pat : List Char) : List Char → Option Nat
  | [] => if pat.isEmpty then some 0 else none
  | c :: cs =>
    if pat.isPrefixOf (c :: cs) then some 0
    else (findSubIdx pat cs).map (· + 1)

/-- Matcher for `<metadata>[\s\S]*?<\/metadata>`: lazy repetition
means the block ends at the first occurrence of `</metadata>`. -/
def metadataMatch (s : List Char) : Option Nat :=
  if metaOpen.isPrefixOf s then
    match findSubIdx metaClose (s.drop metaOpen.length) with
    | some j => some (metaOpen.length + j + metaClose.length - 1)
    | none => none
  else none

/-- One left-to-right non-overlapping global replacement scan, the
semantics of JavaScript `String.replace(/re/g, repl)` for regexes
whose matches are non-empty.  At each position the matcher is tried;
on a match of `n + 1` characters they are consumed and `repl` is
emitted, otherwise one character is copied.  `fuel` bounds the number
of steps; every caller passes the length of the string, which is
enough because each step consumes at least one character. -/
def scanStepF (m : List Char → Option Nat) (repl : List Char) :
    Nat → List Char → List Char
  | _, [] => []
  | 0, s => s
  | fuel + 1, c :: cs =>
    match m (c :: cs) with
    | some n => repl ++ scanStepF m repl fuel (cs.drop n)
    | none => c :: scanStepF m repl fuel cs

/-- JavaScript global regex replacement (for non-empty matches). -/
def jsReplace (m : List Char → Option Nat) (repl s : List Char) : List Char :=
  scanStepF m repl s.length s

/-- Pass 1 of `cleanSvgResponse`: `svgText.replace(/ns0:/g, "")`. -/
def pass1 (s : List Char) : List Char := jsReplace (litMatch ns0Pat) [] s

/-- Pass 2: `clean.replace(/xmlns:ns0="[^"]*"/g, "")`. -/
def pass2 (s : List Char) : List Char := jsReplace ns0DeclMatch [] s

/-- Pass 3: `clean.replace(/fill="#000000"/g, 'fill="#ffffff"')`. -/
def pass3 (s : List Char) : List Char := jsReplace (litMatch fillBlack) fillWhite s

/-- Pass 4: `clean.replace(/<metadata>[\s\S]*?<\/metadata>/g, "")`. -/
def pass4 (s : List Char) : List Char := jsReplace metadataMatch [] s

/-- `cleanSvgResponse` on character lists: the four passes in source
order. -/
def cleanSvgList (s : List Char) : List Char := pass4 (pass3 (pass2 (pass1 s)))

/-- The sanitizer `cleanSvgResponse` of `src/app/layout.tsx`. -/
def cleanSvgResponse (s : String) : String := String.mk (cleanSvgList s.data)

/-!
## The page state machine

`ProcessorParams` is a JavaScript object with numeric and boolean
fields (`show_debug` is optional, i.e. possibly absent).  It is
modelled as a total function from field names to values, where a
value is a number (JavaScript numbers carry the literals 128, 0.2, …;
no arithmetic is performed on them, so `Rat` is a faithful carrier),
a boolean, or `absent` for a missing optional field.  The object
spread `{ ...prev, [key]: value }` of `updateParam` is then exactly a
pointwise function update.
-/

/-- Field names of `ProcessorParams`. -/
inductive ParamField
  | threshold
  | denoise
  | turdsize
  | alphamax
  | optimize_tolerance
  | inverted
  | fill_holes
  | show_debug
  deriving DecidableEq, Fintype

/-- A JavaScript field value: number, boolean, or absent. -/
inductive ParamValue
  | num (q : Rat)
  | bool (b : Bool)
  | absent
  deriving DecidableEq

/-- A `ProcessorParams` object. -/
def Params : Type := ParamField → ParamValue

instance : DecidableEq Params := fun p q =>
  decidable_of_iff (∀ f, p f = q f) ⟨funext, fun h f => congrFun h f⟩

/-- `DEFAULT_PARAMS` of the source. -/
def DEFAULT_PARAMS : Params := fun f =>
  match f with
  | .threshold => .num 128
  | .denoise => .num 0
  | .turdsize => .num 10
  | .alphamax => .num 1
  | .optimize_tolerance => .num (2 / 10)
  | .inverted => .bool false
  | .fill_holes => .bool false
  | .show_debug => .absent

/-- The object spread with a computed key,
`{ ...prev, [key]: value }`. -/
def setParamValue (p : Params) (f : ParamField) (v : ParamValue) : Params :=
  fun g => if g = f then v else p g

/-- The `PresetKey` union type of the source:
`'clean' | 'photo' | 'laser' | 'custom'`. -/
inductive PresetKey
  | clean
  | photo
  | laser
  | custom
  deriving DecidableEq

/-- The string a `PresetKey` denotes (used to index the
`Record<string, Preset>` catalog). -/
def PresetKey.str : PresetKey → String
  | .clean => "clean"
  | .photo => "photo"
  | .laser => "laser"
  | .custom => "custom"

/-- A server-supplied `Preset`. -/
structure Preset where
  pname : String
  description : String
  params : Params

/-- The preset catalog, a `Record<string, Preset>`; JavaScript object
indexing `presets[key]` is association-list lookup, and the truthiness
test `presets[presetKey]` is `Option.isSome` (a present `Preset`
object is always truthy). -/
def Catalog : Type := List (String × Preset)

/-- A file as the handlers see it: its `type` media string and the
data URL produced by `FileReader.readAsDataURL`. -/
structure FileData where
  ftype : String
  dataUrl : String

/-- `file.type.startsWith('image/')`. -/
def isImageFile (f : FileData) : Bool :=
  List.isPrefixOf "image/".data f.ftype.data

/-- The state held by the `Home` component's `useState` hooks. -/
structure AppState where
  originalImage : Option String
  vectorSvg : Option String
  isProcessing : Bool
  params : Params
  presets : Catalog
  selectedPreset : PresetKey
  showAdvanced : Bool
  isDragging : Bool

/-- The initial state of the component's hooks. -/
def initialState : AppState where
  originalImage := none
  vectorSvg := none
  isProcessing := false
  params := DEFAULT_PARAMS
  presets := []
  selectedPreset := .clean
  showAdvanced := false
  isDragging := false

/-- `updateParam`: spread-update one field, then
`setSelectedPreset('custom')` unconditionally. -/
def updateParam (s : AppState) (f : ParamField) (v : ParamValue) : AppState :=
  { s with params := setParamValue s.params f v, selectedPreset := .custom }

/-- `handlePresetChange`: `setSelectedPreset(presetKey)` always; then
`if (presetKey !== 'custom' && presets[presetKey]) setParams(...)`. -/
def handlePresetChange (s : AppState) (k : PresetKey) : AppState :=
  if k ≠ PresetKey.custom then
    match List.lookup k.str s.presets with
    | some p => { s with selectedPreset := k, params := p.params }
    | none => { s with selectedPreset := k }
  else { s with selectedPreset := k }

/-- `processFile`: the `FileReader` onload callback stores the data
URL as `originalImage` and resets `vectorSvg` to `null`. -/
def processFile (s : AppState) (f : FileData) : AppState :=
  { s with originalImage := some f.dataUrl, vectorSvg := none }

/-- `handleImageUpload`: `const file = e.target.files?.[0]; if (file)
processFile(file);` — note there is no media-type test here. -/
def handleImageUpload (s : AppState) (file : Option FileData) : AppState :=
  match file with
  | some f => processFile s f
  | none => s

/-- `handleDrop`: drag flag off, then
`if (file && file.type.startsWith('image/')) processFile(file)`. -/
def handleDrop (s : AppState) (file : Option FileData) : AppState :=
  match file with
  | some f =>
    if isImageFile f then processFile { s with isDragging := false } f
    else { s with isDragging := false }
  | none => { s with isDragging := false }

/-- The clear button:
`onClick={() => { setOriginalImage(null); setVectorSvg(null); }}`. -/
def clearImage (s : AppState) : AppState :=
  { s with originalImage := none, vectorSvg := none }

/-- `loadPresets`, successful fetch with `response.ok`:
`setPresets(data); if (data.clean) setParams(data.clean.params)` —
the selection is not written. -/
def loadPresetsOk (s : AppState) (data : Catalog) : AppState :=
  match List.lookup "clean" data with
  | some p => { s with presets := data, params := p.params }
  | none => { s with presets := data }

/-- `loadPresets`, failed fetch or non-ok status: the `catch` only
logs; no state is written. -/
def loadPresetsFail (s : AppState) : AppState := s

/-- Outcome of the `fetch` to the vectorization endpoint. -/
inductive FetchOutcome
  | ok (body : String)
  | httpError (status : Nat) (body : String)
  | netError

/-- `processImage` up to the suspension point: early return when
`originalImage` is null, otherwise `setIsProcessing(true)` before the
network call. -/
def processImageMid (s : AppState) : AppState :=
  if s.originalImage.isSome then { s with isProcessing := true } else s

/-- `processImage` complete run, as a function of the fetch outcome:
on success the sanitized body becomes `vectorSvg`; a non-ok status
throws and is caught (logged only); a network error is caught
likewise; the `finally` block clears `isProcessing` on every path. -/
def processImageRun (s : AppState) (o : FetchOutcome) : AppState :=
  if s.originalImage.isSome then
    match o with
    | .ok body =>
      { s with vectorSvg := some (cleanSvgResponse body), isProcessing := false }
    | .httpError _ _ => { s with isProcessing := false }
    | .netError => { s with isProcessing := false }
  else s

/-- Every user-or-network event the spec's state claims range over. -/
inductive Action
  | upload (file : Option FileData)
  | drop (file : Option FileData)
  | dragOver
  | dragLeave
  | clearImg
  | setField (f : ParamField) (v : ParamValue)
  | choosePreset (k : PresetKey)
  | presetsLoaded (result : Option Catalog)
  | convert (o : FetchOutcome)
  | toggleAdvanced

/-- The combined step function of the component. -/
def step (s : AppState) : Action → AppState
  | .upload file => handleImageUpload s file
  | .drop file => handleDrop s file
  | .dragOver => { s with isDragging := true }
  | .dragLeave => { s with isDragging := false }
  | .clearImg => clearImage s
  | .setField f v => updateParam s f v
  | .choosePreset k => handlePresetChange s k
  | .presetsLoaded none => loadPresetsFail s
  | .presetsLoaded (some data) => loadPresetsOk s data
  | .convert o => processImageRun s o
  | .toggleAdvanced => { s with showAdvanced := !s.showAdvanced }

/-!
## The debounce timer

The conversion `useEffect` re-runs whenever `params` or
`originalImage` (or the `processImage` closure) changes; its cleanup
clears the previously scheduled timeout, so at most one timer is ever
pending — re-running the effect cancels and reschedules it.  The
timer body checks the `originalImage` captured when the effect ran.
Time is in milliseconds.
-/

/-- Debounce state: the single pending timer (fire time together with
the `originalImage`-present flag captured at schedule time) and the
times at which a conversion request was actually issued. -/
structure DebounceState where
  pendingAt : Option (Nat × Bool)
  calls : List Nat
  deriving DecidableEq

/-- Timer events: a `params`/`originalImage` change at time `t`
(re-running the effect), or the clock reaching time `t`. -/
inductive TimerEv
  | change (t : Nat) (hasImage : Bool)
  | tick (t : Nat)

/-- One timer transition.  A change clears any pending timeout and
schedules a new one 500 ms out; a tick fires the pending timeout when
its time has come, and the body calls `processImage` only when an
image was present. -/
def timerStep (d : DebounceState) : TimerEv → DebounceState
  | .change t hasImage => { d with pendingAt := some (t + 500, hasImage) }
  | .tick t =>
    match d.pendingAt with
    | some (ft, hasImage) =>
      if ft = t then
        { pendingAt := none
          calls := if hasImage then d.calls ++ [t] else d.calls }
      else d
    | none => d

/-- Run a sequence of timer events. -/
def runTimer (d : DebounceState) (evs : List TimerEv) : DebounceState :=
  evs.foldl timerStep d

/-!
## Lemmas about the replacement scan
-/

/-- Unfolding of `scanStepF` at a position where the literal pattern
matches. -/
theorem scanStepF_cons_pos {pat repl : List Char} {fuel : Nat} {c : Char}
    {cs : List Char} (hp : pat.isPrefixOf (c :: cs) = true) :
    scanStepF (litMatch pat) repl (fuel + 1) (c :: cs) =
      repl ++ scanStepF (litMatch pat) repl fuel (cs.drop (pat.length - 1)) := by
  simp [scanStepF, litMatch, hp]

/-- Unfolding of `scanStepF` at a position where the literal pattern
does not match. -/
theorem scanStepF_cons_neg {pat repl : List Char} {fuel : Nat} {c : Char}
    {cs : List Char} (hp : pat.isPrefixOf (c :: cs) = false) :
    scanStepF (litMatch pat) repl (fuel + 1) (c :: cs) =
      c :: scanStepF (litMatch pat) repl fuel cs := by
  simp [scanStepF, litMatch, hp]

/-- A scan whose matcher rejects every non-empty suffix of the input
is the identity. -/
theorem scanStepF_id (m : List Char → Option Nat) (repl : List Char) :
    ∀ (fuel : Nat) (s : List Char),
      (∀ t, t ≠ [] → t <:+ s → m t = none) → scanStepF m repl fuel s = s := by
  intro fuel
  induction fuel with
  | zero =>
    intro s _
    cases s with
    | nil => rfl
    | cons c cs => rfl
  | succ fuel ih =>
    intro s h
    cases s with
    | nil => rfl
    | cons c cs =>
      have hm : m (c :: cs) = none := h (c :: cs) (by simp) (List.suffix_refl _)
      have htail := ih cs (fun t ht hsuf => h t ht (hsuf.trans (List.suffix_cons c cs)))
      simp [scanStepF, hm, htail]

/-- A literal matcher never fires on a suffix of `s` when the pattern
is not an inner block of `s`. -/
theorem litMatch_none_of_not_infix {pat s t : List Char}
    (hinf : ¬ pat <:+: s) (hsuf : t <:+ s) : litMatch pat t = none := by
  have hfalse : pat.isPrefixOf t = false := by
    rw [Bool.eq_false_iff]
    intro hpre
    rw [ List.isPrefixOf_iff_prefix] at hpre
    exact hinf (hpre.isInfix.trans hsuf.isInfix)
  simp [litMatch, hfalse]

/-- The declaration matcher never fires on a suffix of `s` when the
declaration head is not an inner block of `s`. -/
theorem ns0DeclMatch_none_of_not_infix {s t : List Char}
    (hinf : ¬ declHead <:+: s) (hsuf : t <:+ s) : ns0DeclMatch t = none := by
  have hfalse : declHead.isPrefixOf t = false := by
    rw [Bool.eq_false_iff]
    intro hpre
    rw [ List.isPrefixOf_iff_prefix] at hpre
    exact hinf (hpre.isInfix.trans hsuf.isInfix)
  simp [ns0DeclMatch, hfalse]

/-- The metadata matcher never fires on a suffix of `s` when the
opening tag is not an inner block of `s`. -/
theorem metadataMatch_none_of_not_infix {s t : List Char}
    (hinf : ¬ metaOpen <:+: s) (hsuf : t <:+ s) : metadataMatch t = none := by
  have hfalse : metaOpen.isPrefixOf t = false := by
    rw [Bool.eq_false_iff]
    intro hpre
    rw [ List.isPrefixOf_iff_prefix] at hpre
    exact hinf (hpre.isInfix.trans hsuf.isInfix)
  simp [metadataMatch, hfalse]

/-- Pass 1 is the identity when the input has no `ns0:` block. -/
theorem pass1_id {s : List Char} (h : ¬ ns0Pat <:+: s) : pass1 s = s :=
  scanStepF_id _ _ _ s (fun _ _ hsuf => litMatch_none_of_not_infix h hsuf)

/-- Pass 2 is the identity when the input has no `xmlns:ns0="` block. -/
theorem pass2_id {s : List Char} (h : ¬ declHead <:+: s) : pass2 s = s :=
  scanStepF_id _ _ _ s (fun _ _ hsuf => ns0DeclMatch_none_of_not_infix h hsuf)

/-- Pass 3 is the identity when the input has no black-fill block. -/
theorem pass3_id {s : List Char} (h : ¬ fillBlack <:+: s) : pass3 s = s :=
  scanStepF_id _ _ _ s (fun _ _ hsuf => litMatch_none_of_not_infix h hsuf)

/-- Pass 4 is the identity when the input has no `<metadata>` block. -/
theorem pass4_id {s : List Char} (h : ¬ metaOpen <:+: s) : pass4 s = s :=
  scanStepF_id _ _ _ s (fun _ _ hsuf => metadataMatch_none_of_not_infix h hsuf)

/-- An inner block of `A ++ B` avoiding every character of `A` is an
inner block of `B`. -/
theorem infix_right_of_avoid {q B : List Char} :
    ∀ A : List Char, q <:+: A ++ B → (∀ c ∈ A, c ∉ q) → q <:+: B := by
  intro A
  induction A with
  | nil =>
    intro h _
    simpa using h
  | cons a A ih =>
    intro h hav
    rw [List.cons_append, List.infix_cons_iff] at h
    rcases h with hpre | hinf
    · cases q with
      | nil => exact ⟨[], B, by simp⟩
      | cons b q' =>
        have hba : b = a := (List.cons_prefix_cons.1 hpre).1
        have hmem : a ∈ b :: q' := by
          rw [hba]; exact List.mem_cons_self a q'
        exact absurd hmem (hav a (List.mem_cons_self a A))
    · exact ih hinf (fun c hc => hav c (List.mem_cons_of_mem a hc))

/-- If the pattern occurs in the input, the replacement text occurs
in the output of the scan (the first match is rewritten). -/
theorem repl_occurs_of_pat_occurs {pat repl : List Char} (hpat : pat ≠ []) :
    ∀ (fuel : Nat) (s : List Char), s.length ≤ fuel → pat <:+: s →
      repl <:+: scanStepF (litMatch pat) repl fuel s := by
  intro fuel
  induction fuel with
  | zero =>
    intro s hlen hinf
    have hs : s = [] := List.eq_nil_of_length_eq_zero (Nat.le_zero.1 hlen)
    rw [hs] at hinf
    exact absurd (List.infix_nil.1 hinf) hpat
  | succ fuel ih =>
    intro s hlen hinf
    cases s with
    | nil => exact absurd (List.infix_nil.1 hinf) hpat
    | cons c cs =>
      have hcs : cs.length ≤ fuel := Nat.le_of_succ_le_succ (by simpa using hlen)
      by_cases hp : pat.isPrefixOf (c :: cs) = true
      · rw [scanStepF_cons_pos hp]
        exact (List.prefix_append repl _).isInfix
      · rw [scanStepF_cons_neg (Bool.eq_false_iff.2 hp)]
        have htail : pat <:+: cs := by
          rcases List.infix_cons_iff.1 hinf with hpre | h
          · exact absurd (( List.isPrefixOf_iff_prefix).2 hpre) hp
          · exact h
        exact (ih cs hcs htail).trans (List.suffix_cons c _).isInfix

/-- A scan with a non-empty replacement text whose characters all
avoid `q` creates no new occurrence of `q`: any occurrence of `q` in
the output (as an inner block, or as a leading block) was already
present in the input.  Deletion (empty replacement) does not have
this property: removing a block can splice its two neighbours into a
new occurrence. -/
theorem scan_faithful {pat repl : List Char} (hrepl : repl ≠ []) :
    ∀ (fuel : Nat) (q : List Char), (∀ c ∈ repl, c ∉ q) →
      ∀ s : List Char,
        (q <:+: scanStepF (litMatch pat) repl fuel s → q <:+: s) ∧
        (q <+: scanStepF (litMatch pat) repl fuel s → q <+: s) := by
  intro fuel
  induction fuel with
  | zero =>
    intro q _ s
    cases s with
    | nil => exact ⟨id, id⟩
    | cons c cs => exact ⟨id, id⟩
  | succ fuel ih =>
    intro q hdisj s
    cases s with
    | nil => exact ⟨id, id⟩
    | cons c cs =>
      by_cases hp : pat.isPrefixOf (c :: cs) = true
      · rw [scanStepF_cons_pos hp]
        constructor
        · intro h
          have h2 := infix_right_of_avoid repl h hdisj
          have h3 := (ih q hdisj (cs.drop (pat.length - 1))).1 h2
          exact h3.trans ((List.drop_suffix _ _).trans (List.suffix_cons c cs)).isInfix
        · intro h
          cases q with
          | nil => exact ⟨c :: cs, rfl⟩
          | cons b q' =>
            exfalso
            cases repl with
            | nil => exact hrepl rfl
            | cons r rs =>
              have hb : b = r := (List.cons_prefix_cons.1 h).1
              subst hb
              exact hdisj b (List.mem_cons_self b rs) (List.mem_cons_self b q')
      · rw [scanStepF_cons_neg (Bool.eq_false_iff.2 hp)]
        have hpre_case :
            q <+: c :: scanStepF (litMatch pat) repl fuel cs → q <+: c :: cs := by
          intro h
          cases q with
          | nil => exact ⟨c :: cs, rfl⟩
          | cons b q' =>
            have h1 := List.cons_prefix_cons.1 h
            have h2 := (ih q'
              (fun x hx hmem => hdisj x hx (List.mem_cons_of_mem b hmem)) cs).2 h1.2
            exact List.cons_prefix_cons.2 ⟨h1.1, h2⟩
        refine ⟨?_, hpre_case⟩
        intro h
        rcases List.infix_cons_iff.1 h with hpre | hinf
        · exact (hpre_case hpre).isInfix
        · exact ((ih q hdisj cs).1 hinf).trans (List.suffix_cons c cs).isInfix

/-- An inner block of `A ++ X` lies inside `A`, lies inside `X`, or
spans the boundary: a non-empty proper head of it is a suffix of `A`
and the matching tail is a leading block of `X`. -/
theorem infix_append_split {q X : List Char} :
    ∀ A : List Char, q <:+: A ++ X →
      q <:+: A ∨ q <:+: X ∨
        ∃ k, 0 < k ∧ k < q.length ∧ q.take k <:+ A ∧ q.drop k <+: X := by
  intro A
  induction A with
  | nil =>
    intro h
    exact Or.inr (Or.inl (by simpa using h))
  | cons a A ih =>
    intro h
    rw [List.cons_append, List.infix_cons_iff] at h
    rcases h with hpre | hinf
    · by_cases hqlen : q.length ≤ (a :: A).length
      · left
        exact (List.prefix_of_prefix_length_le hpre
          (List.prefix_append (a :: A) X) hqlen).isInfix
      · right
        right
        have hlt : (a :: A).length < q.length := Nat.lt_of_not_le hqlen
        have hle : (a :: A).length ≤ q.length := Nat.le_of_lt hlt
        obtain ⟨t, ht⟩ := hpre
        rw [← List.cons_append] at ht
        refine ⟨(a :: A).length, Nat.succ_pos _, hlt, ?_, ?_⟩
        · have h2 : (q ++ t).take (a :: A).length = q.take (a :: A).length :=
            List.take_append_of_le_length hle
          rw [ht, List.take_left] at h2
          rw [← h2]
        · have h4 : (q ++ t).drop (a :: A).length = q.drop (a :: A).length ++ t :=
            List.drop_append_of_le_length hle
          rw [ht, List.drop_left] at h4
          exact ⟨t, h4.symm⟩
    · rcases ih hinf with h1 | h2 | ⟨k, hk0, hkq, hks, hkp⟩
      · exact Or.inl (h1.trans (List.suffix_cons a A).isInfix)
      · exact Or.inr (Or.inl h2)
      · exact Or.inr (Or.inr ⟨k, hk0, hkq, hks.trans (List.suffix_cons a A), hkp⟩)

/-- A proper tail of the pattern that is a leading block of the scan
output is a leading block of the input, provided no proper tail of
the pattern starts with the first character of the (non-empty)
replacement text. -/
theorem pat_tail_prefix_faithful {pat repl : List Char} (hrepl : repl ≠ [])
    (h5 : ∀ k, k < pat.length → 0 < k → (pat.drop k).head? ≠ repl.head?) :
    ∀ (fuel : Nat) (s : List Char) (k : Nat), 0 < k → k < pat.length →
      pat.drop k <+: scanStepF (litMatch pat) repl fuel s → pat.drop k <+: s := by
  intro fuel
  induction fuel with
  | zero =>
    intro s k _ _ h
    cases s with
    | nil => exact h
    | cons c cs => exact h
  | succ fuel ih =>
    intro s k hk0 hklen h
    cases s with
    | nil => exact h
    | cons c cs =>
      obtain ⟨d, rest, hd⟩ : ∃ d rest, pat.drop k = d :: rest := by
        cases hdk : pat.drop k with
        | nil =>
          rw [List.drop_eq_nil_iff] at hdk
          omega
        | cons d rest => exact ⟨d, rest, rfl⟩
      by_cases hp : pat.isPrefixOf (c :: cs) = true
      · rw [scanStepF_cons_pos hp] at h
        exfalso
        cases hr : repl with
        | nil => exact hrepl hr
        | cons r rs =>
          rw [hd, hr, List.cons_append] at h
          have hdr : d = r := (List.cons_prefix_cons.1 h).1
          have h6 := h5 k hklen hk0
          rw [hd, hr] at h6
          exact h6 (by simp [hdr])
      · rw [scanStepF_cons_neg (Bool.eq_false_iff.2 hp)] at h
        rw [hd] at h ⊢
        have h1 := List.cons_prefix_cons.1 h
        refine List.cons_prefix_cons.2 ⟨h1.1, ?_⟩
        have hrest : rest = pat.drop (k + 1) := by
          have hdd : (pat.drop k).drop 1 = pat.drop (k + 1) := by
            rw [List.drop_drop]
          rw [hd] at hdd
          simpa using hdd
        rcases Nat.lt_or_ge (k + 1) pat.length with hlt | hge
        · rw [hrest]
          exact ih cs (k + 1) (Nat.succ_pos k) hlt (by rw [← hrest]; exact h1.2)
        · have h3 : pat.drop (k + 1) = [] := List.drop_eq_nil_of_le hge
          rw [hrest, h3]
          exact ⟨cs, rfl⟩

/-- After a full scan the literal pattern itself no longer occurs,
provided the pattern does not occur inside the replacement text, no
non-empty proper head of the pattern is a suffix of the replacement
text (no splice on the left edge of a rewritten block), and no proper
tail of the pattern starts with the replacement text's first
character (no splice on its right edge; with the scan's left-to-right
matching this also rules out surviving self-overlapped
occurrences). -/
theorem pat_eliminated {pat repl : List Char} (hpat : pat ≠ []) (hrepl : repl ≠ [])
    (h1 : ¬ pat <:+: repl)
    (h3 : ∀ k, k < pat.length → 0 < k → ¬ pat.take k <:+ repl)
    (h5 : ∀ k, k < pat.length → 0 < k → (pat.drop k).head? ≠ repl.head?) :
    ∀ (fuel : Nat) (s : List Char), s.length ≤ fuel →
      ¬ pat <:+: scanStepF (litMatch pat) repl fuel s := by
  intro fuel
  induction fuel with
  | zero =>
    intro s hlen hinf
    have hs : s = [] := List.eq_nil_of_length_eq_zero (Nat.le_zero.1 hlen)
    subst hs
    exact hpat (List.infix_nil.1 hinf)
  | succ fuel ih =>
    intro s hlen hinf
    cases s with
    | nil => exact hpat (List.infix_nil.1 hinf)
    | cons c cs =>
      have hcs : cs.length ≤ fuel := Nat.le_of_succ_le_succ (by simpa using hlen)
      by_cases hp : pat.isPrefixOf (c :: cs) = true
      · rw [scanStepF_cons_pos hp] at hinf
        rcases infix_append_split repl hinf with ha | hx | ⟨k, hk0, hkq, hks, hkp⟩
        · exact h1 ha
        · have hrest : (cs.drop (pat.length - 1)).length ≤ fuel := by
            rw [List.length_drop]
            omega
          exact ih (cs.drop (pat.length - 1)) hrest hx
        · exact h3 k hkq hk0 hks
      · rw [scanStepF_cons_neg (Bool.eq_false_iff.2 hp)] at hinf
        rcases List.infix_cons_iff.1 hinf with hpre | htail
        · obtain ⟨t, ht⟩ := hpre
          have hpos : 0 < pat.length := List.length_pos.2 hpat
          have hdt : pat.drop 1 ++ t = scanStepF (litMatch pat) repl fuel cs := by
            have h7 : (pat ++ t).drop 1 = pat.drop 1 ++ t :=
              List.drop_append_of_le_length hpos
            rw [ht] at h7
            simpa using h7.symm
          have htk : pat.take 1 = [c] := by
            have h8 : (pat ++ t).take 1 = pat.take 1 :=
              List.take_append_of_le_length hpos
            rw [ht] at h8
            simpa using h8.symm
          have hdc : pat.drop 1 <+: cs := by
            rcases Nat.lt_or_ge 1 pat.length with hlt | hge
            · exact pat_tail_prefix_faithful hrepl h5 fuel cs 1
                Nat.one_pos hlt ⟨t, hdt⟩
            · rw [List.drop_eq_nil_of_le hge]
              exact ⟨cs, rfl⟩
          have hfull : pat <+: c :: cs := by
            have h9 : pat.take 1 ++ pat.drop 1 <+: [c] ++ cs := by
              rw [htk]
              exact (List.prefix_append_right_inj [c]).2 hdc
            rw [List.take_append_drop] at h9
            simpa using h9
          exact hp (( List.isPrefixOf_iff_prefix).2 hfull)
        · exact ih cs hcs htail

/-- No `fill="#000000"` survives pass 3: the pattern has no
self-overlap and cannot be spliced across the non-empty replacement
text, so the single scan rewrites every occurrence. -/
theorem fillBlack_eliminated (s : List Char) : ¬ fillBlack <:+: pass3 s :=
  pat_eliminated (by decide) (by decide) (by decide) (by decide) (by decide)
    s.length s (Nat.le_refl _)

/-- Freedom from all four patterns the sanitizer rewrites. -/
def residueFree (l : List Char) : Prop :=
  ¬ ns0Pat <:+: l ∧ ¬ declHead <:+: l ∧ ¬ fillBlack <:+: l ∧ ¬ metaOpen <:+: l

instance (l : List Char) : Decidable (residueFree l) := by
  unfold residueFree
  infer_instance

/-- The sanitizer is the identity on pattern-free inputs. -/
theorem cleanSvgList_id {l : List Char} (h : residueFree l) : cleanSvgList l = l := by
  obtain ⟨h1, h2, h3, h4⟩ := h
  unfold cleanSvgList
  rw [pass1_id h1, pass2_id h2, pass3_id h3, pass4_id h4]

/-- C4: the sanitizer as claimed is not idempotent on every input:
the first pass deletes non-overlapping `ns0:` blocks in a single scan,
and the deletion can splice the remaining characters into a new
`ns0:` block that only a second application removes. -/
theorem cleanSvg_not_idempotent_cex :
    cleanSvgResponse (cleanSvgResponse "ns0ns0::") ≠ cleanSvgResponse "ns0ns0::" := by
  decide

/-- C4 (amended): the sanitizer is idempotent on every input whose
single-application output is free of the four rewritten patterns
(`ns0:`, an `xmlns:ns0="` declaration opener, `fill="#000000"`, and a
`<metadata>` tag) — in particular on all ordinary service responses;
idempotence can only fail when a deletion splices a new match
together. -/
theorem cleanSvg_idempotent_amended (s : String)
    (h : residueFree (cleanSvgResponse s).data) :
    cleanSvgResponse (cleanSvgResponse s) = cleanSvgResponse s := by
  show String.mk (cleanSvgList (cleanSvgResponse s).data) = cleanSvgResponse s
  rw [cleanSvgList_id h]

theorem cleanSvg_idempotent_amended_witness :
    residueFree (cleanSvgResponse "<svg fill=\"#123456\"/>").data ∧
    cleanSvgResponse (cleanSvgResponse "<svg fill=\"#123456\"/>") =
      cleanSvgResponse "<svg fill=\"#123456\"/>" :=
  ⟨by decide, cleanSvg_idempotent_amended _ (by decide)⟩

/-- C3: the claim fails as stated.  On an input holding
`fill="#000000"` inside a metadata block and a spliceable pair of
`ns0:` fragments, the output keeps no `fill="#ffffff"` (the rewritten
occurrence is deleted together with its metadata block by pass 4) and
still holds an `ns0:` token (spliced together by the pass-1
deletions). -/
theorem cleanSvg_fill_claim_cex :
    fillBlack <:+: ("ns0ns0::<metadata>fill=\"#000000\"</metadata>" : String).data ∧
    cleanSvgResponse "ns0ns0::<metadata>fill=\"#000000\"</metadata>" = "ns0:" ∧
    ¬ fillWhite <:+:
      (cleanSvgResponse "ns0ns0::<metadata>fill=\"#000000\"</metadata>").data ∧
    ns0Pat <:+:
      (cleanSvgResponse "ns0ns0::<metadata>fill=\"#000000\"</metadata>").data := by
  decide

/-- C3 (amended): for every input markup string that contains
`fill="#000000"` and contains no `ns0` fragment and no `<metadata>`
tag, the sanitized output contains `fill="#ffffff"` and no remaining
`fill="#000000"` — every occurrence is rewritten in place — no `ns0`
fragment (hence neither an `ns0:` prefix token nor an `xmlns:ns0`
declaration), and no `<metadata>` block.  Without those restrictions
a black fill inside a metadata block is deleted with the block rather
than rewritten, and deletions can splice new `ns0:` tokens or
metadata blocks together. -/
theorem cleanSvg_fill_rewrite_amended (s : String)
    (hfill : fillBlack <:+: s.data)
    (hns0 : ¬ ns0Bare <:+: s.data)
    (hmeta : ¬ metaOpen <:+: s.data) :
    fillWhite <:+: (cleanSvgResponse s).data ∧
    ¬ fillBlack <:+: (cleanSvgResponse s).data ∧
    ¬ ns0Bare <:+: (cleanSvgResponse s).data ∧
    ¬ xmlnsNs0 <:+: (cleanSvgResponse s).data ∧
    ¬ metaOpen <:+: (cleanSvgResponse s).data := by
  have hns0pat : ¬ ns0Pat <:+: s.data := fun h =>
    hns0 ((show ns0Bare <+: ns0Pat by decide).isInfix.trans h)
  have hdecl : ¬ declHead <:+: s.data := fun h =>
    hns0 ((show ns0Bare <:+: declHead by decide).trans h)
  have hlist : (cleanSvgResponse s).data = pass4 (pass3 s.data) := by
    show cleanSvgList s.data = _
    unfold cleanSvgList
    rw [pass1_id hns0pat, pass2_id hdecl]
  have hwne : fillWhite ≠ [] := by decide
  have hns0_3 : ¬ ns0Bare <:+: pass3 s.data := fun h =>
    hns0 ((scan_faithful hwne s.data.length ns0Bare (by decide) s.data).1 h)
  have hmeta_3 : ¬ metaOpen <:+: pass3 s.data := fun h =>
    hmeta ((scan_faithful hwne s.data.length metaOpen (by decide) s.data).1 h)
  have hwhite_3 : fillWhite <:+: pass3 s.data :=
    repl_occurs_of_pat_occurs (by decide) s.data.length s.data (Nat.le_refl _) hfill
  rw [hlist, pass4_id hmeta_3]
  refine ⟨hwhite_3, fillBlack_eliminated s.data, hns0_3, ?_, hmeta_3⟩
  exact fun h => hns0_3 ((show ns0Bare <:+: xmlnsNs0 by decide).trans h)

theorem cleanSvg_fill_rewrite_amended_witness :
    (fillBlack <:+: ("<svg fill=\"#000000\"/>" : String).data ∧
     ¬ ns0Bare <:+: ("<svg fill=\"#000000\"/>" : String).data ∧
     ¬ metaOpen <:+: ("<svg fill=\"#000000\"/>" : String).data) ∧
    (fillWhite <:+: (cleanSvgResponse "<svg fill=\"#000000\"/>").data ∧
     ¬ fillBlack <:+: (cleanSvgResponse "<svg fill=\"#000000\"/>").data ∧
     ¬ ns0Bare <:+: (cleanSvgResponse "<svg fill=\"#000000\"/>").data ∧
     ¬ xmlnsNs0 <:+: (cleanSvgResponse "<svg fill=\"#000000\"/>").data ∧
     ¬ metaOpen <:+: (cleanSvgResponse "<svg fill=\"#000000\"/>").data) :=
  ⟨⟨by decide, by decide, by decide⟩,
   cleanSvg_fill_rewrite_amended _ (by decide) (by decide) (by decide)⟩

/-!
## Parameter store claims
-/

/-- A concrete server preset used in witnesses. -/
def demoClean : Preset where
  pname := "Clean Graphic"
  description := "demo clean"
  params := fun _ => ParamValue.num 1

/-- A second concrete server preset used in witnesses. -/
def demoPhoto : Preset where
  pname := "Photo"
  description := "demo photo"
  params := fun _ => ParamValue.num 3

/-- A concrete catalog used in witnesses. -/
def demoCatalog : Catalog := [("clean", demoClean), ("photo", demoPhoto)]

/-- C1: the claim fails: an unknown key is not a no-op.  With the
initial empty catalog, choosing "laser" moves the selection from
"clean" to "laser" even though "laser" is not a catalog entry
(`setSelectedPreset(presetKey)` runs before the catalog test). -/
theorem handlePresetChange_claim_cex :
    List.lookup PresetKey.laser.str initialState.presets = none ∧
    initialState.selectedPreset = PresetKey.clean ∧
    (handlePresetChange initialState PresetKey.laser).selectedPreset =
      PresetKey.laser :=
  ⟨rfl, rfl, rfl⟩

/-- C1 (amended): applying a preset key always sets the selection to
that key.  The parameter set is replaced by the catalog entry's
params exactly when the key is not "custom" and is present in the
catalog, and is left unchanged otherwise — so the unknown-key case is
not a full no-op: the selection still moves to the unknown key. -/
theorem handlePresetChange_amended (s : AppState) (k : PresetKey) :
    (handlePresetChange s k).selectedPreset = k ∧
    (∀ p, k ≠ PresetKey.custom → List.lookup k.str s.presets = some p →
      (handlePresetChange s k).params = p.params) ∧
    ((k = PresetKey.custom ∨ List.lookup k.str s.presets = none) →
      (handlePresetChange s k).params = s.params) := by
  by_cases hk : k = PresetKey.custom
  · subst hk
    refine ⟨rfl, fun p hne _ => absurd rfl hne, fun _ => rfl⟩
  · cases hl : List.lookup k.str s.presets with
    | some p =>
      have hres : handlePresetChange s k =
          { s with selectedPreset := k, params := p.params } := by
        unfold handlePresetChange
        rw [if_pos hk, hl]
      refine ⟨by rw [hres], ?_, ?_⟩
      · intro p' _ hl'
        have hpp : p = p' := Option.some.inj hl'
        rw [hres, hpp]
      · intro hor
        rcases hor with h | h
        · exact absurd h hk
        · exact absurd h (by simp)
    | none =>
      have hres : handlePresetChange s k = { s with selectedPreset := k } := by
        unfold handlePresetChange
        rw [if_pos hk, hl]
      refine ⟨by rw [hres], ?_, fun _ => by rw [hres]⟩
      intro p' _ hl'
      exact absurd hl' (by simp)

theorem handlePresetChange_amended_witness :
    ((handlePresetChange { initialState with presets := demoCatalog }
        PresetKey.photo).selectedPreset = PresetKey.photo) ∧
    (PresetKey.photo ≠ PresetKey.custom ∧
      List.lookup PresetKey.photo.str demoCatalog = some demoPhoto ∧
      (handlePresetChange { initialState with presets := demoCatalog }
          PresetKey.photo).params = demoPhoto.params) ∧
    ((PresetKey.laser = PresetKey.custom ∨
        List.lookup PresetKey.laser.str demoCatalog = none) ∧
      (handlePresetChange { initialState with presets := demoCatalog }
          PresetKey.laser).params =
        ({ initialState with presets := demoCatalog } : AppState).params) := by
  refine ⟨(handlePresetChange_amended _ _).1, ⟨by decide, rfl, ?_⟩, ?_⟩
  · exact (handlePresetChange_amended _ PresetKey.photo).2.1 demoPhoto (by decide) rfl
  · exact ⟨Or.inr rfl, (handlePresetChange_amended _ PresetKey.laser).2.2 (Or.inr rfl)⟩

/-- C2: `updateParam` writes exactly the given field, leaves every
other field untouched, and unconditionally demotes the selection to
"custom" — also when the written value is the one already stored. -/
theorem updateParam_field_update (s : AppState) (f : ParamField) (v : ParamValue) :
    (updateParam s f v).params f = v ∧
    (∀ g, g ≠ f → (updateParam s f v).params g = s.params g) ∧
    (updateParam s f v).selectedPreset = PresetKey.custom := by
  refine ⟨?_, ?_, rfl⟩
  · show setParamValue s.params f v f = v
    simp [setParamValue]
  · intro g hg
    show setParamValue s.params f v g = s.params g
    simp [setParamValue, hg]

theorem updateParam_field_update_witness :
    (updateParam initialState .threshold (.num 128)).params .threshold
      = ParamValue.num 128 ∧
    (ParamField.denoise ≠ ParamField.threshold ∧
      (updateParam initialState .threshold (.num 128)).params .denoise =
        initialState.params .denoise) ∧
    (updateParam initialState .threshold (.num 128)).selectedPreset =
      PresetKey.custom :=
  ⟨(updateParam_field_update initialState .threshold (.num 128)).1,
   ⟨by decide, (updateParam_field_update initialState .threshold (.num 128)).2.1
      ParamField.denoise (by decide)⟩,
   (updateParam_field_update initialState .threshold (.num 128)).2.2⟩

/-- C10: choosing the "custom" entry moves only the selection: the
whole rest of the state, in particular the parameter set, is exactly
preserved, whatever the catalog holds. -/
theorem handlePresetChange_custom_only_selection (s : AppState) :
    handlePresetChange s PresetKey.custom =
      { s with selectedPreset := PresetKey.custom } := rfl

/-!
## Image intake, orchestrator, catalog load, debounce
-/

/-- A concrete non-image file used in counterexamples. -/
def pdfFile : FileData where
  ftype := "application/pdf"
  dataUrl := "data:application/pdf;base64,AA=="

/-- A concrete image file used in witnesses. -/
def demoImage : FileData where
  ftype := "image/png"
  dataUrl := "data:image/png;base64,AAAA"

/-- C5: loading an image stores its data URL and leaves `vectorSvg`
absent; the clear button empties both; and no event can replace
`originalImage` while keeping a stale `vectorSvg`: every step either
preserves the image or ends with `vectorSvg` absent. -/
theorem image_output_invariant (s : AppState) (f : FileData) :
    (processFile s f).originalImage = some f.dataUrl ∧
    (processFile s f).vectorSvg = none ∧
    (clearImage s).originalImage = none ∧
    (clearImage s).vectorSvg = none ∧
    ∀ a : Action, (step s a).originalImage = s.originalImage ∨
      (step s a).vectorSvg = none := by
  refine ⟨rfl, rfl, rfl, rfl, ?_⟩
  intro a
  cases a with
  | upload file =>
    cases file with
    | none => exact Or.inl rfl
    | some g => exact Or.inr rfl
  | drop file =>
    cases file with
    | none => exact Or.inl rfl
    | some g =>
      by_cases hg : isImageFile g = true
      · right
        show (handleDrop s (some g)).vectorSvg = none
        simp [handleDrop, hg, processFile]
      · left
        show (handleDrop s (some g)).originalImage = s.originalImage
        simp [handleDrop, hg]
  | dragOver => exact Or.inl rfl
  | dragLeave => exact Or.inl rfl
  | clearImg => exact Or.inr rfl
  | setField g v => exact Or.inl rfl
  | choosePreset k =>
    left
    show (handlePresetChange s k).originalImage = s.originalImage
    by_cases hk : k = PresetKey.custom
    · subst hk; rfl
    · unfold handlePresetChange
      rw [if_pos hk]
      cases List.lookup k.str s.presets <;> rfl
  | presetsLoaded result =>
    cases result with
    | none => exact Or.inl rfl
    | some data =>
      left
      show (loadPresetsOk s data).originalImage = s.originalImage
      unfold loadPresetsOk
      cases List.lookup "clean" data <;> rfl
  | convert o =>
    left
    show (processImageRun s o).originalImage = s.originalImage
    unfold processImageRun
    by_cases him : s.originalImage.isSome = true
    · rw [if_pos him]
      cases o <;> rfl
    · rw [if_neg him]
  | toggleAdvanced => exact Or.inl rfl

/-- C6: the claim fails for selection intake: `handleImageUpload`
performs no media-type test, so a non-image file provided through the
file dialog is processed and does change the state. -/
theorem upload_nonimage_claim_cex :
    isImageFile pdfFile = false ∧
    initialState.originalImage = none ∧
    (handleImageUpload initialState (some pdfFile)).originalImage =
      some pdfFile.dataUrl := by
  refine ⟨by decide, rfl, rfl⟩

/-- C6 (amended): drop intake does require an image media type — a
non-image drop only resets the drag flag and leaves `originalImage`
and `vectorSvg` untouched, with no error surfaced — but selection
intake checks nothing: `handleImageUpload` processes any provided
file, relying solely on the dialog's `accept="image/*"` hint. -/
theorem intake_type_check_amended (s : AppState) (f : FileData)
    (hf : isImageFile f = false) :
    (handleDrop s (some f)).originalImage = s.originalImage ∧
    (handleDrop s (some f)).vectorSvg = s.vectorSvg ∧
    (handleDrop s (some f)).isDragging = false ∧
    (handleImageUpload s (some f)).originalImage = some f.dataUrl ∧
    (handleImageUpload s (some f)).vectorSvg = none := by
  have hd : handleDrop s (some f) = { s with isDragging := false } := by
    simp [handleDrop, hf]
  exact ⟨by rw [hd], by rw [hd], by rw [hd], rfl, rfl⟩

theorem intake_type_check_amended_witness :
    isImageFile pdfFile = false ∧
    ((handleDrop initialState (some pdfFile)).originalImage =
        initialState.originalImage ∧
      (handleDrop initialState (some pdfFile)).vectorSvg =
        initialState.vectorSvg ∧
      (handleDrop initialState (some pdfFile)).isDragging = false ∧
      (handleImageUpload initialState (some pdfFile)).originalImage =
        some pdfFile.dataUrl ∧
      (handleImageUpload initialState (some pdfFile)).vectorSvg = none) :=
  ⟨by decide, intake_type_check_amended initialState pdfFile (by decide)⟩

/-- C7: when an image is present, the orchestrator raises
`isProcessing` before the network call and clears it on every
outcome — success, error status (thrown and caught), network error —
and on both failure outcomes `vectorSvg` keeps its previous value; a
success stores the sanitized response body. -/
theorem processImage_flag_and_failure (s : AppState) (o : FetchOutcome)
    (him : s.originalImage.isSome = true) :
    (processImageMid s).isProcessing = true ∧
    (processImageRun s o).isProcessing = false ∧
    (∀ st body, o = .httpError st body →
      (processImageRun s o).vectorSvg = s.vectorSvg) ∧
    (o = .netError → (processImageRun s o).vectorSvg = s.vectorSvg) ∧
    (∀ body, o = .ok body →
      (processImageRun s o).vectorSvg = some (cleanSvgResponse body)) := by
  have hmid : processImageMid s = { s with isProcessing := true } := by
    unfold processImageMid
    rw [if_pos him]
  have hrun : processImageRun s o =
      (match o with
        | .ok body =>
          { s with vectorSvg := some (cleanSvgResponse body), isProcessing := false }
        | .httpError _ _ => { s with isProcessing := false }
        | .netError => { s with isProcessing := false }) := by
    unfold processImageRun
    rw [if_pos him]
  refine ⟨by rw [hmid], ?_, ?_, ?_, ?_⟩
  · rw [hrun]
    cases o <;> rfl
  · intro st body heq
    subst heq
    rw [hrun]
  · intro heq
    subst heq
    rw [hrun]
  · intro body heq
    subst heq
    rw [hrun]

theorem processImage_flag_and_failure_witness :
    (processFile initialState demoImage).originalImage.isSome = true ∧
    (processImageMid (processFile initialState demoImage)).isProcessing = true ∧
    (processImageRun (processFile initialState demoImage)
        (.httpError 500 "err")).isProcessing = false ∧
    (processImageRun (processFile initialState demoImage)
        (.httpError 500 "err")).vectorSvg =
      (processFile initialState demoImage).vectorSvg :=
  ⟨rfl,
   (processImage_flag_and_failure (processFile initialState demoImage)
     (.httpError 500 "err") rfl).1,
   (processImage_flag_and_failure (processFile initialState demoImage)
     (.httpError 500 "err") rfl).2.1,
   (processImage_flag_and_failure (processFile initialState demoImage)
     (.httpError 500 "err") rfl).2.2.1 500 "err" rfl⟩

/-- C8: the claim fails in the pending-edit ordering: `loadPresets`
never writes the selection, so when a field edit resolves before the
catalog, the selection is "custom" at load time and stays "custom"
even though the successful load then installs the clean preset's
params. -/
theorem loadPresets_selection_cex :
    (List.lookup "clean" demoCatalog).isSome = true ∧
    (loadPresetsOk (updateParam initialState .threshold (.num 5))
        demoCatalog).selectedPreset = PresetKey.custom ∧
    (loadPresetsOk (updateParam initialState .threshold (.num 5))
        demoCatalog).params = demoClean.params :=
  ⟨rfl, rfl, rfl⟩

/-- C8 (amended): a successful catalog load stores the mapping and,
when a "clean" entry exists, installs its params; it leaves the
selection untouched — so the selection reads "clean" afterwards only
because it started there, and an edit that happened before the load
resolved leaves it at "custom".  A failed load changes nothing: the
catalog stays empty and the current (default) params are retained. -/
theorem loadPresets_amended (s : AppState) (data : Catalog) :
    (∀ p, List.lookup "clean" data = some p →
      loadPresetsOk s data = { s with presets := data, params := p.params }) ∧
    (List.lookup "clean" data = none →
      loadPresetsOk s data = { s with presets := data }) ∧
    (loadPresetsOk s data).selectedPreset = s.selectedPreset ∧
    loadPresetsFail s = s := by
  refine ⟨?_, ?_, ?_, rfl⟩
  · intro p hp
    unfold loadPresetsOk
    rw [hp]
  · intro hp
    unfold loadPresetsOk
    rw [hp]
  · unfold loadPresetsOk
    cases List.lookup "clean" data <;> rfl

theorem loadPresets_amended_witness :
    List.lookup "clean" demoCatalog = some demoClean ∧
    loadPresetsOk initialState demoCatalog =
      { initialState with presets := demoCatalog, params := demoClean.params } ∧
    (loadPresetsOk initialState demoCatalog).selectedPreset =
      initialState.selectedPreset ∧
    loadPresetsFail initialState = initialState :=
  ⟨rfl, (loadPresets_amended initialState demoCatalog).1 demoClean rfl,
   (loadPresets_amended initialState demoCatalog).2.2.1,
   (loadPresets_amended initialState demoCatalog).2.2.2⟩

/-- C9: debounce behaviour: a change always cancels the single
pending timer and schedules a fresh one 500 ms out; a timer armed
while no image was present makes no call when it fires; and in the
two-changes-200-ms-apart scenario exactly one request fires, at
700 ms — 500 ms after the second change — and none at 500 ms. -/
theorem debounce_behaviour :
    (∀ (d : DebounceState) (t : Nat) (hasImage : Bool),
      (timerStep d (.change t hasImage)).pendingAt = some (t + 500, hasImage)) ∧
    (∀ (ft : Nat) (l : List Nat) (t : Nat),
      (timerStep ⟨some (ft, false), l⟩ (.tick t)).calls = l) ∧
    runTimer ⟨none, []⟩
        [.change 0 true, .change 200 true, .tick 500, .tick 700] =
      ⟨none, [700]⟩ := by
  refine ⟨fun d t hi => rfl, ?_, by decide⟩
  intro ft l t
  by_cases h : ft = t
  · simp [timerStep, h]
  · simp [timerStep, h]

end Image2Svg
